import Mathlib

/-!
Shallow embedding of `Models.py` (encoder-decoder Transformer):
mask builders, sinusoidal positional encoding, encoder/decoder stack
composition, weight sharing at construction, and the end-to-end forward.

Tensors of a fixed shape are modelled as curried functions over `Fin`
(torch tensors are rectangular, so the shape lives in the type); float
values are modelled as real numbers.  The attention / feed-forward layer
blocks (`transformer.Layers`, explicitly out of scope in the design as
external collaborators) as well as `nn.Dropout` and `nn.LayerNorm` are
modelled as opaque function parameters with the shape-preserving contract
the code relies on.
-/

namespace Models

/-- A 3-dimensional real tensor of shape `(b, L, d)`. -/
abbrev Tensor3 (b L d : ℕ) : Type := Fin b → Fin L → Fin d → ℝ

/-- Source function `get_pad_mask(seq, pad_idx)` (Models.py line 17-19):
`(seq != pad_idx).unsqueeze(-2)`, i.e. a boolean tensor of shape
`(batch, 1, length)` with entry `[b, 0, t] = (seq[b, t] != pad_idx)`. -/
def get_pad_mask {batch L : ℕ} (seq : Fin batch → Fin L → ℤ) (pad_idx : ℤ) :
    Fin batch → Fin 1 → Fin L → Bool :=
  fun b _ t => decide (seq b t ≠ pad_idx)

/-- Entries of `torch.triu(torch.ones((1, len_s, len_s)), diagonal=1)`:
`triu` with `diagonal=1` keeps entry `(i, j)` iff `j - i ≥ 1`.
(Float `1.0` is represented exactly; we use `ℤ` so the value is decidable.) -/
def triu_ones_diag1 (L : ℕ) : Fin 1 → Fin L → Fin L → ℤ :=
  fun _ i j => if (i : ℕ) + 1 ≤ (j : ℕ) then 1 else 0

/-- Source function `get_subsequent_mask(seq)` (Models.py line 25-46):
`(1 - torch.triu(torch.ones((1, len_s, len_s)), diagonal=1)).bool()`.
The argument is used only for its size (so only the type matters here);
`.bool()` maps a number to `true` iff it is nonzero. -/
def get_subsequent_mask {batch L : ℕ} (_seq : Fin batch → Fin L → ℤ) :
    Fin 1 → Fin L → Fin L → Bool :=
  fun u i j => decide ((1 : ℤ) - triu_ones_diag1 L u i j ≠ 0)

/-- Broadcast elementwise `&` of a `(batch, 1, L)` tensor with a `(1, L, L)`
tensor, giving shape `(batch, L, L)`: entry `[b, i, j] = pm[b, 0, j] && sm[0, i, j]`
(torch broadcasting semantics for these shapes). -/
def mask_and {batch L : ℕ} (pm : Fin batch → Fin 1 → Fin L → Bool)
    (sm : Fin 1 → Fin L → Fin L → Bool) : Fin batch → Fin L → Fin L → Bool :=
  fun b i j => pm b 0 j && sm 0 i j

/-- The decoder self-attention mask built in `Transformer.forward` (line 237):
`get_pad_mask(trg_seq, trg_pad_idx) & get_subsequent_mask(trg_seq)`. -/
def build_target_mask {batch L : ℕ} (seq : Fin batch → Fin L → ℤ) (pad_idx : ℤ) :
    Fin batch → Fin L → Fin L → Bool :=
  mask_and (get_pad_mask seq pad_idx) (get_subsequent_mask seq)

/-- Source expression `get_position_angle_vec(position)[j]` (Models.py line 62-64):
`position / np.power(10000, 2 * (hid_j // 2) / d_hid)` — integer floor
division `j // 2`, then real exponentiation. -/
noncomputable def position_angle (d_hid pos j : ℕ) : ℝ :=
  (pos : ℝ) / (10000 : ℝ) ^ (((2 * (j / 2) : ℕ) : ℝ) / (d_hid : ℝ))

/-- Table `_get_sinusoid_encoding_table(n_position, d_hid)` before the leading
`unsqueeze(0)` (Models.py line 56-72): even columns get `sin` of the angle,
odd columns get `cos` of the angle. -/
noncomputable def pe_table (n_position d_hid : ℕ) : Fin n_position → Fin d_hid → ℝ :=
  fun pos j =>
    if (j : ℕ) % 2 = 0 then Real.sin (position_angle d_hid (pos : ℕ) (j : ℕ))
    else Real.cos (position_angle d_hid (pos : ℕ) (j : ℕ))

/-- The registered buffer `pos_table` of shape `(1, n_position, d_hid)`
(after `unsqueeze(0)`), computed once in `PositionalEncoding.__init__`. -/
noncomputable def pos_table (n_position d_hid : ℕ) :
    Fin 1 → Fin n_position → Fin d_hid → ℝ :=
  fun _ => pe_table n_position d_hid

/-- Method `PositionalEncoding.forward(x)` (Models.py line 74-77):
`x + self.pos_table[:, :x.size(1)].clone().detach()`.
The slice `pos_table[:, :L]` has second dimension `min L n_position`; the
torch elementwise add then broadcasts: it succeeds iff that dimension equals
`L` (i.e. `L ≤ n_position`) or equals `1` (i.e. `n_position = 1`, in which
case row 0 of the table is silently replicated over all `L` positions), and
raises a runtime shape error otherwise, modelled as `none`. -/
noncomputable def pe_forward {batch L d : ℕ} (n_position : ℕ) (x : Tensor3 batch L d) :
    Option (Tensor3 batch L d) :=
  if h : L ≤ n_position then
    some (fun b t j => x b t j + pe_table n_position d ⟨(t : ℕ), lt_of_lt_of_le t.isLt h⟩ j)
  else if h1 : n_position = 1 then
    some (fun b t j => x b t j + pe_table n_position d ⟨0, by omega⟩ j)
  else none

/-- One weight table (an `nn.Parameter` payload): a row/column count and the
stored values.  Values are total functions; only indices below `rows`/`cols`
are meaningful. -/
structure TableData where
  rows : ℕ
  cols : ℕ
  vals : ℕ → ℕ → ℝ

/-- The constructor arguments of `Transformer.__init__` (Models.py line
176-181).  `scale_emb_or_prj` is a raw string, as in the source, so that the
construction-time `assert scale_emb_or_prj in ['emb', 'prj', 'none']` is a
real check. -/
structure Config where
  n_src_vocab : ℕ
  n_trg_vocab : ℕ
  src_pad_idx : ℤ
  trg_pad_idx : ℤ
  d_word_vec : ℕ
  d_model : ℕ
  d_inner : ℕ
  n_layers : ℕ
  n_head : ℕ
  d_k : ℕ
  d_v : ℕ
  dropout_p : ℚ
  n_position : ℕ
  trg_emb_prj_weight_sharing : Bool
  emb_src_trg_weight_sharing : Bool
  scale_emb_or_prj : String

/-- Line 197: `scale_emb = (scale_emb_or_prj == 'emb') if
trg_emb_prj_weight_sharing else False`. -/
def scale_emb_flag (sharing : Bool) (sel : String) : Bool :=
  if sharing then decide (sel = "emb") else false

/-- Line 198: `self.scale_prj = (scale_emb_or_prj == 'prj') if
trg_emb_prj_weight_sharing else False`. -/
def scale_prj_flag (sharing : Bool) (sel : String) : Bool :=
  if sharing then decide (sel = "prj") else false

/-- The parameter-reference state of a constructed `Transformer`.  The three
embedding/projection weights live in a store of numbered cells; each module
holds a cell *reference*, so weight sharing is reference equality (two
attributes naming the same `nn.Parameter` storage), not value equality.
Cell 0 is the parameter created by `Encoder.__init__` for `src_word_emb`,
cell 1 the one created by `Decoder.__init__` for `trg_word_emb`, cell 2 the
one created by `nn.Linear` for `trg_word_prj`. -/
structure TransformerSt where
  srcEmbCell : ℕ
  trgEmbCell : ℕ
  prjCell : ℕ
  store : ℕ → TableData
  scale_emb : Bool
  scale_prj : Bool
  d_model : ℕ
  n_position : ℕ
  src_pad_idx : ℤ
  trg_pad_idx : ℤ

/-- Constructor `Transformer.__init__` (Models.py line 176-231).  The two `assert`s
(legal `scale_emb_or_prj` value, line 196; `d_model == d_word_vec`, line 219)
are modelled as `none` on failure.  `v0 v1 v2` are the post-Xavier-init
values of the three freshly created weight tables (the initializer is
random, so they are parameters of the model).  Line 226-228: if
`trg_emb_prj_weight_sharing`, `trg_word_prj.weight` is rebound to the
decoder embedding's parameter (cell 1).  Line 230-231: if
`emb_src_trg_weight_sharing`, `encoder.src_word_emb.weight` is rebound to
the same cell 1. -/
def mkTransformer (cfg : Config) (v0 v1 v2 : ℕ → ℕ → ℝ) : Option TransformerSt :=
  if cfg.scale_emb_or_prj ∈ (["emb", "prj", "none"] : List String) then
    if cfg.d_model = cfg.d_word_vec then
      some
        { srcEmbCell := if cfg.emb_src_trg_weight_sharing then 1 else 0
          trgEmbCell := 1
          prjCell := if cfg.trg_emb_prj_weight_sharing then 1 else 2
          store := fun n =>
            if n = 0 then ⟨cfg.n_src_vocab, cfg.d_word_vec, v0⟩
            else if n = 1 then ⟨cfg.n_trg_vocab, cfg.d_word_vec, v1⟩
            else ⟨cfg.n_trg_vocab, cfg.d_model, v2⟩
          scale_emb := scale_emb_flag cfg.trg_emb_prj_weight_sharing cfg.scale_emb_or_prj
          scale_prj := scale_prj_flag cfg.trg_emb_prj_weight_sharing cfg.scale_emb_or_prj
          d_model := cfg.d_model
          n_position := cfg.n_position
          src_pad_idx := cfg.src_pad_idx
          trg_pad_idx := cfg.trg_pad_idx }
    else none
  else none

/-- Mutate the table stored in cell `c` (e.g. a gradient update performed
through whichever module attribute references that parameter). -/
def writeCell (m : TransformerSt) (c : ℕ) (t : TableData) : TransformerSt :=
  { m with store := fun n => if n = c then t else m.store n }

/-- External collaborator: one `EncoderLayer` from `transformer.Layers`
(out of scope per the design): `(x, slf_attn_mask) -> (x', attn)`,
shape-preserving. -/
structure EncoderLayerB (batch L d : ℕ) (α : Type) where
  apply : Tensor3 batch L d → (Fin batch → Fin 1 → Fin L → Bool) →
    Tensor3 batch L d × α

/-- External collaborator: one `DecoderLayer` from `transformer.Layers`:
`(x, enc_output, slf_attn_mask, dec_enc_attn_mask) -> (x', slf_attn, enc_attn)`. -/
structure DecoderLayerB (batch Lt Ls d : ℕ) (β : Type) where
  apply : Tensor3 batch Lt d → Tensor3 batch Ls d →
    (Fin batch → Fin Lt → Fin Lt → Bool) → (Fin batch → Fin 1 → Fin Ls → Bool) →
    Tensor3 batch Lt d × β × β

/-- The `for enc_layer in self.layer_stack` loop of `Encoder.forward`
(line 116-118): thread the representation through the layers, appending each
layer's attention matrix to the list only when `return_attns` is set. -/
def encStack {batch L d : ℕ} {α : Type} (layers : List (EncoderLayerB batch L d α))
    (x : Tensor3 batch L d) (mask : Fin batch → Fin 1 → Fin L → Bool)
    (return_attns : Bool) : Tensor3 batch L d × List α :=
  layers.foldl
    (fun acc layer =>
      let r := layer.apply acc.1 mask
      (r.1, acc.2 ++ (if return_attns then [r.2] else []))) (x, [])

/-- The per-layer attention matrices of the encoder loop, in layer order. -/
def encStackAttns {batch L d : ℕ} {α : Type} :
    List (EncoderLayerB batch L d α) → Tensor3 batch L d →
    (Fin batch → Fin 1 → Fin L → Bool) → List α
  | [], _, _ => []
  | layer :: rest, x, mask =>
      (layer.apply x mask).2 :: encStackAttns rest (layer.apply x mask).1 mask

/-- The `for dec_layer in self.layer_stack` loop of `Decoder.forward`
(line 161-165): thread the representation, appending each layer's
self-attention and cross-attention matrices only when `return_attns` is set. -/
def decStack {batch Lt Ls d : ℕ} {β : Type}
    (layers : List (DecoderLayerB batch Lt Ls d β))
    (x : Tensor3 batch Lt d) (enc_output : Tensor3 batch Ls d)
    (trg_mask : Fin batch → Fin Lt → Fin Lt → Bool)
    (src_mask : Fin batch → Fin 1 → Fin Ls → Bool)
    (return_attns : Bool) : Tensor3 batch Lt d × List β × List β :=
  layers.foldl
    (fun acc layer =>
      let r := layer.apply acc.1 enc_output trg_mask src_mask
      (r.1, acc.2.1 ++ (if return_attns then [r.2.1] else []),
        acc.2.2 ++ (if return_attns then [r.2.2] else []))) (x, [], [])

/-- The per-layer self-attention matrices of the decoder loop, in layer order. -/
def decStackSlfAttns {batch Lt Ls d : ℕ} {β : Type} :
    List (DecoderLayerB batch Lt Ls d β) → Tensor3 batch Lt d →
    Tensor3 batch Ls d → (Fin batch → Fin Lt → Fin Lt → Bool) →
    (Fin batch → Fin 1 → Fin Ls → Bool) → List β
  | [], _, _, _, _ => []
  | layer :: rest, x, enc_output, trg_mask, src_mask =>
      (layer.apply x enc_output trg_mask src_mask).2.1
        :: decStackSlfAttns rest (layer.apply x enc_output trg_mask src_mask).1
            enc_output trg_mask src_mask

/-- The per-layer cross-attention matrices of the decoder loop, in layer order. -/
def decStackEncAttns {batch Lt Ls d : ℕ} {β : Type} :
    List (DecoderLayerB batch Lt Ls d β) → Tensor3 batch Lt d →
    Tensor3 batch Ls d → (Fin batch → Fin Lt → Fin Lt → Bool) →
    (Fin batch → Fin 1 → Fin Ls → Bool) → List β
  | [], _, _, _, _ => []
  | layer :: rest, x, enc_output, trg_mask, src_mask =>
      (layer.apply x enc_output trg_mask src_mask).2.2
        :: decStackEncAttns rest (layer.apply x enc_output trg_mask src_mask).1
            enc_output trg_mask src_mask

/-- The embedding-lookup stage shared by `Encoder.forward` (line 109-111) and
`Decoder.forward` (line 154-156): look up the token's row of the embedding
table, then, when `scale_emb` is set, multiply by `d_model ** 0.5`. -/
noncomputable def embedStage {batch L d : ℕ} (embW : ℕ → ℕ → ℝ) (scale_emb : Bool)
    (d_model : ℕ) (seq : Fin batch → Fin L → ℕ) : Tensor3 batch L d :=
  if scale_emb then
    fun b t j => embW (seq b t) (j : ℕ) * (d_model : ℝ) ^ ((0.5 : ℝ))
  else
    fun b t j => embW (seq b t) (j : ℕ)

/-- Method `Encoder.forward` (line 102-122): embedding (optionally scaled),
positional encoding, dropout, input layer norm, then the layer stack. -/
noncomputable def encoderForward {batch L d : ℕ} {α : Type} (n_position : ℕ)
    (embW : ℕ → ℕ → ℝ) (scale_emb : Bool) (d_model : ℕ)
    (dropout norm : Tensor3 batch L d → Tensor3 batch L d)
    (layers : List (EncoderLayerB batch L d α))
    (src_seq : Fin batch → Fin L → ℕ) (src_mask : Fin batch → Fin 1 → Fin L → Bool)
    (return_attns : Bool) : Option (Tensor3 batch L d × List α) :=
  (pe_forward n_position (embedStage embW scale_emb d_model src_seq)).map
    (fun p => encStack layers (norm (dropout p)) src_mask return_attns)

/-- Method `Decoder.forward` (line 145-169): embedding (optionally scaled),
positional encoding, dropout, input layer norm, then the layer stack with
the combined target mask for self-attention and the source padding mask for
cross-attention. -/
noncomputable def decoderForward {batch Lt Ls d : ℕ} {β : Type} (n_position : ℕ)
    (embW : ℕ → ℕ → ℝ) (scale_emb : Bool) (d_model : ℕ)
    (dropout norm : Tensor3 batch Lt d → Tensor3 batch Lt d)
    (layers : List (DecoderLayerB batch Lt Ls d β))
    (trg_seq : Fin batch → Fin Lt → ℕ)
    (trg_mask : Fin batch → Fin Lt → Fin Lt → Bool)
    (enc_output : Tensor3 batch Ls d)
    (src_mask : Fin batch → Fin 1 → Fin Ls → Bool)
    (return_attns : Bool) : Option (Tensor3 batch Lt d × List β × List β) :=
  (pe_forward n_position (embedStage embW scale_emb d_model trg_seq)).map
    (fun p => decStack layers (norm (dropout p)) enc_output trg_mask src_mask return_attns)

/-- The externally supplied modules of one concrete model: the per-encoder /
per-decoder dropout and layer-norm modules and the black-box layer stacks. -/
structure Externals (batch Ls Lt d : ℕ) (α β : Type) where
  encDropout : Tensor3 batch Ls d → Tensor3 batch Ls d
  encNorm : Tensor3 batch Ls d → Tensor3 batch Ls d
  decDropout : Tensor3 batch Lt d → Tensor3 batch Lt d
  decNorm : Tensor3 batch Lt d → Tensor3 batch Lt d
  encLayers : List (EncoderLayerB batch Ls d α)
  decLayers : List (DecoderLayerB batch Lt Ls d β)

/-- Lines 234-240 of `Transformer.forward`: build the source padding mask
and the combined target mask, run encoder then decoder (both with
`return_attns` left at its default `False`), and keep the decoder's primary
output. -/
noncomputable def decOutput {batch Ls Lt d : ℕ} {α β : Type}
    (m : TransformerSt) (E : Externals batch Ls Lt d α β)
    (src_seq : Fin batch → Fin Ls → ℕ) (trg_seq : Fin batch → Fin Lt → ℕ) :
    Option (Tensor3 batch Lt d) :=
  let src_mask := get_pad_mask (fun b t => ((src_seq b t : ℕ) : ℤ)) m.src_pad_idx
  let trg_mask := build_target_mask (fun b t => ((trg_seq b t : ℕ) : ℤ)) m.trg_pad_idx
  (encoderForward m.n_position (m.store m.srcEmbCell).vals m.scale_emb m.d_model
      E.encDropout E.encNorm E.encLayers src_seq src_mask false).bind
    (fun er =>
      (decoderForward m.n_position (m.store m.trgEmbCell).vals m.scale_emb m.d_model
          E.decDropout E.decNorm E.decLayers trg_seq trg_mask er.1 src_mask false).map
        (fun dr => dr.1))

/-- Lines 241-243 of `Transformer.forward`: project with the `trg_word_prj`
weight (`nn.Linear` without bias: `y[c] = sum_j x[j] * W[c][j]`), then
multiply by `d_model ** -0.5` when `scale_prj` is set. -/
noncomputable def projStage {batch Lt d : ℕ} (Vt : ℕ) (prjW : ℕ → ℕ → ℝ)
    (scale_prj : Bool) (d_model : ℕ) (x : Tensor3 batch Lt d) : Tensor3 batch Lt Vt :=
  let logit : Tensor3 batch Lt Vt :=
    fun b t c => ∑ j : Fin d, x b t j * prjW (c : ℕ) (j : ℕ)
  if scale_prj then
    fun b t c => logit b t c * (d_model : ℝ) ^ (-(0.5 : ℝ))
  else logit

/-- Value `seq_logit` of `Transformer.forward` (line 234-243), up to (and including) the optional
projection scaling, i.e. `seq_logit` before the final `view`. -/
noncomputable def seqLogits {batch Ls Lt d : ℕ} {α β : Type} (Vt : ℕ)
    (m : TransformerSt) (E : Externals batch Ls Lt d α β)
    (src_seq : Fin batch → Fin Ls → ℕ) (trg_seq : Fin batch → Fin Lt → ℕ) :
    Option (Tensor3 batch Lt Vt) :=
  (decOutput m E src_seq trg_seq).map
    (projStage Vt (m.store m.prjCell).vals m.scale_prj m.d_model)

/-- Flattening `seq_logit.view(-1, seq_logit.size(2))` (line 245): flatten `(b, L, v)`
to `(b*L, v)` in row-major order — row `r` holds batch index `r / L` and
position `r % L`. -/
def view2 {b L v : ℕ} (x : Tensor3 b L v) : Fin (b * L) → Fin v → ℝ :=
  fun r c => x r.divNat r.modNat c

/-- The flattened row index of batch `i`, position `t` (batch slower-varying). -/
def flatIdx {b L : ℕ} (i : Fin b) (t : Fin L) : Fin (b * L) :=
  ⟨(i : ℕ) * L + (t : ℕ), by
    have hi := i.isLt
    have ht := t.isLt
    calc (i : ℕ) * L + (t : ℕ) < (i : ℕ) * L + L := by omega
    _ = ((i : ℕ) + 1) * L := by ring
    _ ≤ b * L := Nat.mul_le_mul_right L (by omega)⟩

/-- Method `Transformer.forward` (line 234-245): the flattened logits. -/
noncomputable def fullForward {batch Ls Lt d : ℕ} {α β : Type} (Vt : ℕ)
    (m : TransformerSt) (E : Externals batch Ls Lt d α β)
    (src_seq : Fin batch → Fin Ls → ℕ) (trg_seq : Fin batch → Fin Lt → ℕ) :
    Option (Fin (batch * Lt) → Fin Vt → ℝ) :=
  (seqLogits Vt m E src_seq trg_seq).map view2

/-- Method `Transformer.forward` as a state transformer: the Python method performs
no assignment to any parameter attribute (line 234-245 only read), so its
effect on the parameter state is the identity; it returns the logits. -/
noncomputable def forwardStep {batch Ls Lt d : ℕ} {α β : Type} (Vt : ℕ)
    (m : TransformerSt) (E : Externals batch Ls Lt d α β)
    (src_seq : Fin batch → Fin Ls → ℕ) (trg_seq : Fin batch → Fin Lt → ℕ) :
    Option (Fin (batch * Lt) → Fin Vt → ℝ) × TransformerSt :=
  (fullForward Vt m E src_seq trg_seq, m)

/-- A concrete constructor configuration for witnesses: vocab sizes 5 and 7,
both sharing switches on, selector `prj`, `d_model = d_word_vec = 4`. -/
def cfgW : Config :=
  { n_src_vocab := 5, n_trg_vocab := 7, src_pad_idx := 0, trg_pad_idx := 0,
    d_word_vec := 4, d_model := 4, d_inner := 8, n_layers := 1, n_head := 2,
    d_k := 2, d_v := 2, dropout_p := 0, n_position := 16,
    trg_emb_prj_weight_sharing := true, emb_src_trg_weight_sharing := true,
    scale_emb_or_prj := "prj" }

/-- A concrete all-zero weight table value for witnesses. -/
noncomputable def vW : ℕ → ℕ → ℝ := fun _ _ => 0

/-- The model `mkTransformer cfgW vW vW vW` produces, written out. -/
noncomputable def mW : TransformerSt :=
  { srcEmbCell := 1, trgEmbCell := 1, prjCell := 1,
    store := fun n =>
      if n = 0 then ⟨5, 4, vW⟩ else if n = 1 then ⟨7, 4, vW⟩ else ⟨7, 4, vW⟩,
    scale_emb := false, scale_prj := true, d_model := 4, n_position := 16,
    src_pad_idx := 0, trg_pad_idx := 0 }

/-- Variant of `cfgW` with target-embedding/projection sharing switched off, for
witnesses about the unshared configuration. -/
def cfgU : Config :=
  { cfgW with trg_emb_prj_weight_sharing := false }

/-- Trivial external modules (identity dropout/norm, empty layer stacks) at
scalar shapes, for witnesses. -/
def EW : Externals 1 1 1 1 Unit Unit :=
  { encDropout := id, encNorm := id, decDropout := id, decNorm := id,
    encLayers := [], decLayers := [] }

/-- The concrete example sequence `[[1, 2, 0]]` from the spec. -/
def seqEx : Fin 1 → Fin 3 → ℤ :=
  fun _ t => if (t : ℕ) = 0 then 1 else if (t : ℕ) = 1 then 2 else 0

/-- The expected combined mask `[[[1,0,0],[1,1,0],[1,1,0]]]` from the spec. -/
def trgMaskEx : Fin 1 → Fin 3 → Fin 3 → Bool :=
  fun _ => ![![true, false, false], ![true, true, false], ![true, true, false]]

end Models

namespace Models

lemma subsequent_mask_entry {batch L : ℕ} (seq : Fin batch → Fin L → ℤ)
    (u : Fin 1) (i j : Fin L) :
    get_subsequent_mask seq u i j = decide ((j : ℕ) ≤ (i : ℕ)) := by
  unfold get_subsequent_mask triu_ones_diag1
  by_cases h : (i : ℕ) + 1 ≤ (j : ℕ)
  · simp only [h, if_true]
    norm_num
    omega
  · simp only [h, if_false]
    norm_num
    omega

lemma sum_range_succ_mul_two (n : ℕ) :
    (∑ k in Finset.range n, (k + 1)) * 2 = n * (n + 1) := by
  induction n with
  | zero => simp
  | succ m ih =>
      rw [Finset.sum_range_succ, Nat.add_mul, ih]
      ring

lemma subsequent_true_count {batch L : ℕ} (seq : Fin batch → Fin L → ℤ) (u : Fin 1) :
    ((Finset.univ : Finset (Fin L × Fin L)).filter
        (fun p => get_subsequent_mask seq u p.1 p.2 = true)).card = L * (L + 1) / 2 := by
  have hset : ((Finset.univ : Finset (Fin L × Fin L)).filter
        (fun p => get_subsequent_mask seq u p.1 p.2 = true))
      = ((Finset.univ : Finset (Fin L × Fin L)).filter
        (fun p => (p.2 : ℕ) ≤ (p.1 : ℕ))) := by
    apply Finset.filter_congr
    intro p _
    simp [subsequent_mask_entry]
  rw [hset, Finset.card_filter, ← Finset.univ_product_univ, Finset.sum_product]
  have hinner : ∀ i : Fin L,
      (∑ j : Fin L, if (j : ℕ) ≤ (i : ℕ) then 1 else 0) = (i : ℕ) + 1 := by
    intro i
    rw [Fin.sum_univ_eq_sum_range (fun k => if k ≤ (i : ℕ) then 1 else 0) L]
    rw [← Finset.sum_filter]
    have hf : ((Finset.range L).filter (fun k => k ≤ (i : ℕ)))
        = Finset.range ((i : ℕ) + 1) := by
      ext k
      have := i.isLt
      simp only [Finset.mem_filter, Finset.mem_range]
      omega
    rw [hf]
    simp
  rw [Finset.sum_congr rfl (fun i _ => hinner i)]
  rw [Fin.sum_univ_eq_sum_range (fun k => k + 1) L]
  have h2 := sum_range_succ_mul_two L
  omega

/-- C3: `get_pad_mask` returns a `(batch, 1, length)` boolean tensor (the shape
is forced by the return type) with entry `[b, u, t] = (seq[b, t] != pad_idx)`;
it is a pure function of its arguments (no side effects in the embedding). -/
theorem C3_pad_mask {batch L : ℕ} (seq : Fin batch → Fin L → ℤ) (pad_idx : ℤ)
    (b : Fin batch) (u : Fin 1) (t : Fin L) :
    get_pad_mask seq pad_idx b u t = decide (seq b t ≠ pad_idx) := by
  rfl

/-- C2: `get_subsequent_mask` returns a `(1, length, length)` boolean tensor
(the shape is forced by the return type) whose entry `(i, j)` is true iff
`j ≤ i`; it therefore has exactly `L * (L + 1) / 2` true entries; and it
depends only on the length of `seq`, not on its contents (nor on a pad
index, which it never receives). -/
theorem C2_subsequent_mask {batch L : ℕ} (seq : Fin batch → Fin L → ℤ) :
    (∀ (u : Fin 1) (i j : Fin L),
        get_subsequent_mask seq u i j = decide ((j : ℕ) ≤ (i : ℕ)))
    ∧ (∀ u : Fin 1,
        ((Finset.univ : Finset (Fin L × Fin L)).filter
          (fun p => get_subsequent_mask seq u p.1 p.2 = true)).card = L * (L + 1) / 2)
    ∧ (∀ (batch2 : ℕ) (seq2 : Fin batch2 → Fin L → ℤ),
        get_subsequent_mask seq = get_subsequent_mask seq2) :=
  ⟨fun u i j => subsequent_mask_entry seq u i j,
   fun u => subsequent_true_count seq u,
   fun _ _ => rfl⟩

lemma position_angle_even (d_hid pos i : ℕ) :
    position_angle d_hid pos (2 * i)
      = (pos : ℝ) / (10000 : ℝ) ^ ((2 * (i : ℝ)) / (d_hid : ℝ)) := by
  unfold position_angle
  have hdiv : (2 * i) / 2 = i := Nat.mul_div_cancel_left i (by norm_num)
  rw [hdiv]
  push_cast
  ring_nf

lemma position_angle_odd (d_hid pos i : ℕ) :
    position_angle d_hid pos (2 * i + 1)
      = (pos : ℝ) / (10000 : ℝ) ^ ((2 * (i : ℝ)) / (d_hid : ℝ)) := by
  unfold position_angle
  have hdiv : (2 * i + 1) / 2 = i := by omega
  rw [hdiv]
  push_cast
  ring_nf

/-- C6: the positional table registered at construction has shape
`(1, max_positions, d)` (forced by the type of `pos_table`), and for every
`pos < max_positions` and `2*i+1 < d`, entry `[u, pos, 2i]` equals
`sin(pos / 10000^(2i/d))` and entry `[u, pos, 2i+1]` equals
`cos(pos / 10000^(2i/d))`.  It is computed once in
`PositionalEncoding.__init__` (as a `register_buffer`) and only read by
`pe_forward`. -/
theorem C6_pos_table_values (n_position d pos i : ℕ) (hp : pos < n_position)
    (h2 : 2 * i + 1 < d) (u : Fin 1) :
    pos_table n_position d u ⟨pos, hp⟩ ⟨2 * i, by omega⟩
      = Real.sin ((pos : ℝ) / (10000 : ℝ) ^ ((2 * (i : ℝ)) / (d : ℝ)))
    ∧ pos_table n_position d u ⟨pos, hp⟩ ⟨2 * i + 1, h2⟩
      = Real.cos ((pos : ℝ) / (10000 : ℝ) ^ ((2 * (i : ℝ)) / (d : ℝ))) := by
  constructor
  · show pe_table n_position d ⟨pos, hp⟩ ⟨2 * i, by omega⟩ = _
    unfold pe_table
    simp only [Nat.mul_mod_right, if_true]
    rw [position_angle_even]
  · show pe_table n_position d ⟨pos, hp⟩ ⟨2 * i + 1, h2⟩ = _
    unfold pe_table
    have hodd : (2 * i + 1) % 2 = 1 := by omega
    simp only [hodd]
    norm_num
    rw [position_angle_odd]

/-- C6 witness: the theorem applied at `n_position = 1`, `d = 2`,
`pos = 0`, `i = 0`. -/
theorem C6_pos_table_values_witness :
    pos_table 1 2 0 ⟨0, Nat.one_pos⟩ ⟨2 * 0, by decide⟩
      = Real.sin (((0 : ℕ) : ℝ) / (10000 : ℝ) ^ ((2 * ((0 : ℕ) : ℝ)) / ((2 : ℕ) : ℝ)))
    ∧ pos_table 1 2 0 ⟨0, Nat.one_pos⟩ ⟨2 * 0 + 1, by decide⟩
      = Real.cos (((0 : ℕ) : ℝ) / (10000 : ℝ) ^ ((2 * ((0 : ℕ) : ℝ)) / ((2 : ℕ) : ℝ))) :=
  C6_pos_table_values 1 2 0 0 Nat.one_pos (by decide) 0

/-- C7 counterexample: the claim says every input with `length > max_positions`
fails, but with `max_positions = 1` and `length = 2` the torch broadcast of the
sliced table (second dimension 1) against the input (second dimension 2)
succeeds, so `PositionalEncoding.forward` silently returns a value instead of
raising. -/
theorem C7_pe_forward_counterexample :
    1 < 2 ∧ pe_forward 1 ((fun _ _ _ => 0) : Tensor3 1 2 1) ≠ none := by
  refine ⟨by decide, ?_⟩
  rw [pe_forward, dif_neg (by omega), dif_pos rfl]
  exact Option.some_ne_none _

/-- C7 amended: for `length ≤ max_positions` the result is
`x + pos_table[:, :length]` (confirming the in-bounds clause); for
`length > max_positions` the forward raises a broadcast shape error
(modelled `none`) whenever `max_positions ≥ 2`, but in the degenerate case
`max_positions = 1` it does NOT fail: broadcasting silently replicates table
row 0 across all positions. -/
theorem C7_pe_forward_amended {batch L d n_position : ℕ} (x : Tensor3 batch L d) :
    (∀ h : L ≤ n_position,
        pe_forward n_position x
          = some (fun b t j =>
              x b t j + pe_table n_position d ⟨(t : ℕ), lt_of_lt_of_le t.isLt h⟩ j))
    ∧ (2 ≤ n_position → n_position < L → pe_forward n_position x = none)
    ∧ (∀ h1 : n_position = 1, 1 < L →
        pe_forward n_position x
          = some (fun b t j => x b t j + pe_table n_position d ⟨0, by omega⟩ j)) := by
  refine ⟨fun h => ?_, fun h2 hL => ?_, fun h1 hL => ?_⟩
  · rw [pe_forward, dif_pos h]
  · rw [pe_forward, dif_neg (by omega), dif_neg (by omega)]
  · rw [pe_forward, dif_neg (by omega), dif_pos h1]

/-- C7 witness: the amended theorem applied at concrete shapes — in-bounds
`L = 1 ≤ 2 = max_positions`, out-of-bounds failing `L = 3 > 2 = max_positions ≥ 2`,
and the degenerate silent-broadcast case `max_positions = 1 < 2 = L`. -/
theorem C7_pe_forward_amended_witness :
    (pe_forward 2 ((fun _ _ _ => 0) : Tensor3 1 1 1)
      = some (fun b t j =>
          ((fun _ _ _ => 0) : Tensor3 1 1 1) b t j
            + pe_table 2 1 ⟨(t : ℕ), lt_of_lt_of_le t.isLt (by decide)⟩ j))
    ∧ (pe_forward 2 ((fun _ _ _ => 0) : Tensor3 1 3 1) = none)
    ∧ (pe_forward 1 ((fun _ _ _ => 0) : Tensor3 1 2 1)
      = some (fun b t j =>
          ((fun _ _ _ => 0) : Tensor3 1 2 1) b t j + pe_table 1 1 ⟨0, by omega⟩ j)) :=
  ⟨(C7_pe_forward_amended ((fun _ _ _ => 0) : Tensor3 1 1 1)).1 (by decide),
   (C7_pe_forward_amended ((fun _ _ _ => 0) : Tensor3 1 3 1)).2.1 (by decide) (by decide),
   (C7_pe_forward_amended ((fun _ _ _ => 0) : Tensor3 1 2 1)).2.2 rfl (by decide)⟩

/-- C1: the decoder self-attention mask built in `Transformer.forward` is the
broadcast elementwise AND of the padding mask and the subsequent mask: entry
`[b, i, j]` is true iff `seq[b, j] != pad_idx` and `j ≤ i`; and on
`seq = [[1,2,0]]` with `pad_idx = 0` it equals `[[[1,0,0],[1,1,0],[1,1,0]]]`.
(That this combined mask is the sole mask fed to decoder self-attention is
visible in `seqLogits` below, which passes `build_target_mask` as the
decoder's `slf_attn_mask` and nothing else.) -/
theorem C1_target_mask {batch L : ℕ} (seq : Fin batch → Fin L → ℤ) (pad_idx : ℤ) :
    (∀ (b : Fin batch) (i j : Fin L),
        build_target_mask seq pad_idx b i j
          = (decide (seq b j ≠ pad_idx) && decide ((j : ℕ) ≤ (i : ℕ))))
    ∧ (∀ (b : Fin batch) (i j : Fin L),
        build_target_mask seq pad_idx b i j
          = (get_pad_mask seq pad_idx b 0 j && get_subsequent_mask seq 0 i j))
    ∧ (∀ (u : Fin 1) (i j : Fin 3), build_target_mask seqEx 0 u i j = trgMaskEx u i j) := by
  refine ⟨fun b i j => ?_, fun b i j => rfl, by decide⟩
  show (get_pad_mask seq pad_idx b 0 j && get_subsequent_mask seq 0 i j) = _
  rw [subsequent_mask_entry]
  rfl

/-- C4: after construction with `trg_emb_prj_weight_sharing`, the output
projection weight and the target embedding table are the same storage cell
(reference equality): writing through either reference is read back through
the other; with `emb_src_trg_weight_sharing`, source and target embedding
references likewise coincide; with both switches, all three collapse to the
single cell; and the forward pass leaves the parameter state (hence these
identities) untouched. -/
theorem C4_weight_sharing (cfg : Config) (v0 v1 v2 : ℕ → ℕ → ℝ) (m : TransformerSt)
    (h : mkTransformer cfg v0 v1 v2 = some m) :
    (cfg.trg_emb_prj_weight_sharing = true →
        m.prjCell = m.trgEmbCell
        ∧ ∀ t : TableData, (writeCell m m.prjCell t).store m.trgEmbCell = t
            ∧ (writeCell m m.trgEmbCell t).store m.prjCell = t)
    ∧ (cfg.emb_src_trg_weight_sharing = true →
        m.srcEmbCell = m.trgEmbCell
        ∧ ∀ t : TableData, (writeCell m m.srcEmbCell t).store m.trgEmbCell = t
            ∧ (writeCell m m.trgEmbCell t).store m.srcEmbCell = t)
    ∧ (cfg.trg_emb_prj_weight_sharing = true → cfg.emb_src_trg_weight_sharing = true →
        m.srcEmbCell = m.trgEmbCell ∧ m.prjCell = m.trgEmbCell)
    ∧ (∀ (batch Ls Lt d Vt : ℕ) (α β : Type) (E : Externals batch Ls Lt d α β)
        (src_seq : Fin batch → Fin Ls → ℕ) (trg_seq : Fin batch → Fin Lt → ℕ),
        (forwardStep Vt m E src_seq trg_seq).2 = m) := by
  rw [mkTransformer] at h
  by_cases h1 : cfg.scale_emb_or_prj ∈ (["emb", "prj", "none"] : List String)
  case neg => rw [if_neg h1] at h; exact absurd h (by simp)
  rw [if_pos h1] at h
  by_cases h2 : cfg.d_model = cfg.d_word_vec
  case neg => rw [if_neg h2] at h; exact absurd h (by simp)
  rw [if_pos h2] at h
  have hm := (Option.some.inj h).symm
  subst hm
  refine ⟨fun hsh => ?_, fun hsh => ?_, fun hsh1 hsh2 => ?_,
    fun _ _ _ _ _ _ _ _ _ _ => rfl⟩
  · constructor
    · simp [hsh]
    · intro t
      constructor
      · simp [hsh, writeCell]
      · simp [hsh, writeCell]
  · constructor
    · simp [hsh]
    · intro t
      constructor
      · simp [hsh, writeCell]
      · simp [hsh, writeCell]
  · exact ⟨by simp [hsh2], by simp [hsh1]⟩

/-- C4 witness: the theorem applied to the concrete model built from `cfgW`
(both sharing switches on). -/
theorem C4_weight_sharing_witness :
    (mW.prjCell = mW.trgEmbCell
      ∧ (writeCell mW mW.prjCell ⟨3, 3, vW⟩).store mW.trgEmbCell = ⟨3, 3, vW⟩)
    ∧ mW.srcEmbCell = mW.trgEmbCell
    ∧ (forwardStep 1 mW EW (fun _ _ => 0) (fun _ _ => 0)).2 = mW := by
  have h := C4_weight_sharing cfgW vW vW vW mW rfl
  exact ⟨⟨(h.1 rfl).1, ((h.1 rfl).2 ⟨3, 3, vW⟩).1⟩, (h.2.1 rfl).1,
    h.2.2.2 1 1 1 1 1 Unit Unit EW (fun _ _ => 0) (fun _ _ => 0)⟩

/-- C10: with source/target embedding sharing enabled and
`n_src_vocab ≠ n_trg_vocab`, construction still succeeds (no assert inspects
the vocabulary sizes), and afterwards the encoder's source embedding
reference is the decoder's target embedding cell, whose table has
`n_trg_vocab` rows (and the decoder-embedding initial values `v1`) — the
declared source vocabulary size no longer bounds the shared table. -/
theorem C10_shared_emb_vocab_mismatch (cfg : Config) (v0 v1 v2 : ℕ → ℕ → ℝ)
    (hsh : cfg.emb_src_trg_weight_sharing = true)
    (hsel : cfg.scale_emb_or_prj ∈ (["emb", "prj", "none"] : List String))
    (hdim : cfg.d_model = cfg.d_word_vec)
    (hvocab : cfg.n_src_vocab ≠ cfg.n_trg_vocab) :
    ∃ m : TransformerSt, mkTransformer cfg v0 v1 v2 = some m
      ∧ m.srcEmbCell = m.trgEmbCell
      ∧ (m.store m.srcEmbCell).rows = cfg.n_trg_vocab
      ∧ (m.store m.srcEmbCell).vals = v1 := by
  rw [mkTransformer, if_pos hsel, if_pos hdim]
  exact ⟨_, rfl, by simp [hsh], by simp [hsh], by simp [hsh]⟩

lemma encFold_fst {batch L d : ℕ} {α : Type} (mask : Fin batch → Fin 1 → Fin L → Bool)
    (f1 f2 : Bool) :
    ∀ (layers : List (EncoderLayerB batch L d α)) (x : Tensor3 batch L d) (l1 l2 : List α),
      (layers.foldl (fun acc layer =>
          let r := layer.apply acc.1 mask
          (r.1, acc.2 ++ (if f1 then [r.2] else []))) (x, l1)).1
        = (layers.foldl (fun acc layer =>
          let r := layer.apply acc.1 mask
          (r.1, acc.2 ++ (if f2 then [r.2] else []))) (x, l2)).1 := by
  intro layers
  induction layers with
  | nil => intro x l1 l2; rfl
  | cons layer rest ih =>
      intro x l1 l2
      simp only [List.foldl_cons]
      exact ih _ _ _

lemma encStack_fst {batch L d : ℕ} {α : Type} (layers : List (EncoderLayerB batch L d α))
    (x : Tensor3 batch L d) (mask : Fin batch → Fin 1 → Fin L → Bool) (f1 f2 : Bool) :
    (encStack layers x mask f1).1 = (encStack layers x mask f2).1 :=
  encFold_fst mask f1 f2 layers x [] []

lemma encFold_snd {batch L d : ℕ} {α : Type} (mask : Fin batch → Fin 1 → Fin L → Bool)
    (f : Bool) :
    ∀ (layers : List (EncoderLayerB batch L d α)) (x : Tensor3 batch L d) (l : List α),
      (layers.foldl (fun acc layer =>
          let r := layer.apply acc.1 mask
          (r.1, acc.2 ++ (if f then [r.2] else []))) (x, l)).2
        = l ++ (if f then encStackAttns layers x mask else []) := by
  intro layers
  induction layers with
  | nil => intro x l; cases f <;> simp [encStackAttns]
  | cons layer rest ih =>
      intro x l
      simp only [List.foldl_cons]
      rw [ih]
      cases f <;> simp [encStackAttns]

lemma encStack_snd {batch L d : ℕ} {α : Type} (layers : List (EncoderLayerB batch L d α))
    (x : Tensor3 batch L d) (mask : Fin batch → Fin 1 → Fin L → Bool) (f : Bool) :
    (encStack layers x mask f).2 = (if f then encStackAttns layers x mask else []) := by
  have h := encFold_snd mask f layers x []
  simpa [encStack] using h

lemma decFold_fst {batch Lt Ls d : ℕ} {β : Type} (enc_output : Tensor3 batch Ls d)
    (trg_mask : Fin batch → Fin Lt → Fin Lt → Bool)
    (src_mask : Fin batch → Fin 1 → Fin Ls → Bool) (f1 f2 : Bool) :
    ∀ (layers : List (DecoderLayerB batch Lt Ls d β)) (x : Tensor3 batch Lt d)
      (l1 l2 l3 l4 : List β),
      (layers.foldl (fun acc layer =>
          let r := layer.apply acc.1 enc_output trg_mask src_mask
          (r.1, acc.2.1 ++ (if f1 then [r.2.1] else []),
            acc.2.2 ++ (if f1 then [r.2.2] else []))) (x, l1, l2)).1
        = (layers.foldl (fun acc layer =>
          let r := layer.apply acc.1 enc_output trg_mask src_mask
          (r.1, acc.2.1 ++ (if f2 then [r.2.1] else []),
            acc.2.2 ++ (if f2 then [r.2.2] else []))) (x, l3, l4)).1 := by
  intro layers
  induction layers with
  | nil => intro x l1 l2 l3 l4; rfl
  | cons layer rest ih =>
      intro x l1 l2 l3 l4
      simp only [List.foldl_cons]
      exact ih _ _ _ _ _

lemma decStack_fst {batch Lt Ls d : ℕ} {β : Type}
    (layers : List (DecoderLayerB batch Lt Ls d β)) (x : Tensor3 batch Lt d)
    (enc_output : Tensor3 batch Ls d) (trg_mask : Fin batch → Fin Lt → Fin Lt → Bool)
    (src_mask : Fin batch → Fin 1 → Fin Ls → Bool) (f1 f2 : Bool) :
    (decStack layers x enc_output trg_mask src_mask f1).1
      = (decStack layers x enc_output trg_mask src_mask f2).1 :=
  decFold_fst enc_output trg_mask src_mask f1 f2 layers x [] [] [] []

lemma decFold_snd {batch Lt Ls d : ℕ} {β : Type} (enc_output : Tensor3 batch Ls d)
    (trg_mask : Fin batch → Fin Lt → Fin Lt → Bool)
    (src_mask : Fin batch → Fin 1 → Fin Ls → Bool) (f : Bool) :
    ∀ (layers : List (DecoderLayerB batch Lt Ls d β)) (x : Tensor3 batch Lt d)
      (l1 l2 : List β),
      (layers.foldl (fun acc layer =>
          let r := layer.apply acc.1 enc_output trg_mask src_mask
          (r.1, acc.2.1 ++ (if f then [r.2.1] else []),
            acc.2.2 ++ (if f then [r.2.2] else []))) (x, l1, l2)).2
        = (l1 ++ (if f then decStackSlfAttns layers x enc_output trg_mask src_mask else []),
           l2 ++ (if f then decStackEncAttns layers x enc_output trg_mask src_mask else [])) := by
  intro layers
  induction layers with
  | nil => intro x l1 l2; cases f <;> simp [decStackSlfAttns, decStackEncAttns]
  | cons layer rest ih =>
      intro x l1 l2
      simp only [List.foldl_cons]
      rw [ih]
      cases f <;> simp [decStackSlfAttns, decStackEncAttns]

lemma decStack_snd {batch Lt Ls d : ℕ} {β : Type}
    (layers : List (DecoderLayerB batch Lt Ls d β)) (x : Tensor3 batch Lt d)
    (enc_output : Tensor3 batch Ls d) (trg_mask : Fin batch → Fin Lt → Fin Lt → Bool)
    (src_mask : Fin batch → Fin 1 → Fin Ls → Bool) (f : Bool) :
    (decStack layers x enc_output trg_mask src_mask f).2
      = ((if f then decStackSlfAttns layers x enc_output trg_mask src_mask else []),
         (if f then decStackEncAttns layers x enc_output trg_mask src_mask else [])) := by
  have h := decFold_snd enc_output trg_mask src_mask f layers x [] []
  simpa [decStack] using h

/-- C9: running the Encoder (resp. Decoder) with `return_attns = True` and
with `return_attns = False` produces the identical primary output tensor;
the flag only selects which auxiliary per-layer attention lists (in layer
order) are returned alongside it. -/
theorem C9_return_attns_flag {batch Ls Lt d : ℕ} {α β : Type} (n_position : ℕ)
    (embW : ℕ → ℕ → ℝ) (scale_emb : Bool) (d_model : ℕ)
    (dropoutE normE : Tensor3 batch Ls d → Tensor3 batch Ls d)
    (layersE : List (EncoderLayerB batch Ls d α))
    (src_seq : Fin batch → Fin Ls → ℕ)
    (src_mask : Fin batch → Fin 1 → Fin Ls → Bool)
    (dropoutD normD : Tensor3 batch Lt d → Tensor3 batch Lt d)
    (layersD : List (DecoderLayerB batch Lt Ls d β))
    (trg_seq : Fin batch → Fin Lt → ℕ)
    (trg_mask : Fin batch → Fin Lt → Fin Lt → Bool)
    (enc_output : Tensor3 batch Ls d) :
    ((encoderForward n_position embW scale_emb d_model dropoutE normE layersE
        src_seq src_mask true).map Prod.fst
      = (encoderForward n_position embW scale_emb d_model dropoutE normE layersE
        src_seq src_mask false).map Prod.fst)
    ∧ ((encoderForward n_position embW scale_emb d_model dropoutE normE layersE
        src_seq src_mask false).map Prod.snd
      = (pe_forward n_position (embedStage embW scale_emb d_model src_seq : Tensor3 batch Ls d)).map
          (fun _ => ([] : List α)))
    ∧ ((encoderForward n_position embW scale_emb d_model dropoutE normE layersE
        src_seq src_mask true).map Prod.snd
      = (pe_forward n_position (embedStage embW scale_emb d_model src_seq : Tensor3 batch Ls d)).map
          (fun p => encStackAttns layersE (normE (dropoutE p)) src_mask))
    ∧ ((decoderForward n_position embW scale_emb d_model dropoutD normD layersD
        trg_seq trg_mask enc_output src_mask true).map (fun r => r.1)
      = (decoderForward n_position embW scale_emb d_model dropoutD normD layersD
        trg_seq trg_mask enc_output src_mask false).map (fun r => r.1))
    ∧ ((decoderForward n_position embW scale_emb d_model dropoutD normD layersD
        trg_seq trg_mask enc_output src_mask false).map (fun r => r.2)
      = (pe_forward n_position (embedStage embW scale_emb d_model trg_seq : Tensor3 batch Lt d)).map
          (fun _ => (([] : List β), ([] : List β))))
    ∧ ((decoderForward n_position embW scale_emb d_model dropoutD normD layersD
        trg_seq trg_mask enc_output src_mask true).map (fun r => r.2)
      = (pe_forward n_position (embedStage embW scale_emb d_model trg_seq : Tensor3 batch Lt d)).map
          (fun p =>
            (decStackSlfAttns layersD (normD (dropoutD p)) enc_output trg_mask src_mask,
             decStackEncAttns layersD (normD (dropoutD p)) enc_output trg_mask src_mask))) := by
  refine ⟨?_, ?_, ?_, ?_, ?_, ?_⟩
  · unfold encoderForward
    cases hpe : pe_forward n_position (embedStage embW scale_emb d_model src_seq) with
    | none => rfl
    | some p =>
        simp only [Option.map_some']
        exact congrArg some (encStack_fst layersE (normE (dropoutE p)) src_mask true false)
  · unfold encoderForward
    cases hpe : pe_forward n_position (embedStage embW scale_emb d_model src_seq) with
    | none => rfl
    | some p =>
        simp only [Option.map_some']
        rw [encStack_snd]
        simp
  · unfold encoderForward
    cases hpe : pe_forward n_position (embedStage embW scale_emb d_model src_seq) with
    | none => rfl
    | some p =>
        simp only [Option.map_some']
        rw [encStack_snd]
        simp
  · unfold decoderForward
    cases hpe : pe_forward n_position (embedStage embW scale_emb d_model trg_seq) with
    | none => rfl
    | some p =>
        simp only [Option.map_some']
        exact congrArg some (decStack_fst layersD (normD (dropoutD p)) enc_output
          trg_mask src_mask true false)
  · unfold decoderForward
    cases hpe : pe_forward n_position (embedStage embW scale_emb d_model trg_seq) with
    | none => rfl
    | some p =>
        simp only [Option.map_some']
        rw [decStack_snd]
        simp
  · unfold decoderForward
    cases hpe : pe_forward n_position (embedStage embW scale_emb d_model trg_seq) with
    | none => rfl
    | some p =>
        simp only [Option.map_some']
        rw [decStack_snd]
        simp

/-- C10 witness: the theorem applied to `cfgW` (vocab sizes 5 ≠ 7, sharing
on, legal selector, `d_model = d_word_vec`). -/
theorem C10_shared_emb_vocab_mismatch_witness :
    ∃ m : TransformerSt, mkTransformer cfgW vW vW vW = some m
      ∧ m.srcEmbCell = m.trgEmbCell
      ∧ (m.store m.srcEmbCell).rows = cfgW.n_trg_vocab
      ∧ (m.store m.srcEmbCell).vals = vW :=
  C10_shared_emb_vocab_mismatch cfgW vW vW vW rfl (by decide) rfl (by decide)


lemma flatIdx_divNat {b L : ℕ} (i : Fin b) (t : Fin L) : (flatIdx i t).divNat = i := by
  apply Fin.ext
  rw [Fin.coe_divNat]
  show ((i : ℕ) * L + (t : ℕ)) / L = (i : ℕ)
  have ht := t.isLt
  have h0 : 0 < L := Nat.lt_of_le_of_lt (Nat.zero_le _) ht
  rw [show (i : ℕ) * L + (t : ℕ) = (t : ℕ) + L * (i : ℕ) from by ring]
  rw [Nat.add_mul_div_left _ _ h0, Nat.div_eq_of_lt ht]
  exact Nat.zero_add _

lemma flatIdx_modNat {b L : ℕ} (i : Fin b) (t : Fin L) : (flatIdx i t).modNat = t := by
  apply Fin.ext
  rw [Fin.coe_modNat]
  show ((i : ℕ) * L + (t : ℕ)) % L = (t : ℕ)
  have ht := t.isLt
  rw [show (i : ℕ) * L + (t : ℕ) = (t : ℕ) + L * (i : ℕ) from by ring]
  rw [Nat.add_mul_mod_self_left]
  exact Nat.mod_eq_of_lt ht

lemma decOutput_some {batch Ls Lt d : ℕ} {α β : Type}
    (m : TransformerSt) (E : Externals batch Ls Lt d α β)
    (src_seq : Fin batch → Fin Ls → ℕ) (trg_seq : Fin batch → Fin Lt → ℕ)
    (hs : Ls ≤ m.n_position) (ht : Lt ≤ m.n_position) :
    ∃ x : Tensor3 batch Lt d, decOutput m E src_seq trg_seq = some x := by
  unfold decOutput encoderForward decoderForward
  simp only [pe_forward, dif_pos hs, dif_pos ht, Option.map_some', Option.some_bind]
  exact ⟨_, rfl⟩

/-- C8: when both sequence lengths are within the positional table bound,
`Transformer.forward` succeeds; encoder output length is the source length
and decoder output length the target length (forced by the types of
`encoderForward` / `decoderForward` / `decOutput`); and the returned tensor
is the `(batch, trg_len, vocab)` logits flattened to `(batch*trg_len, vocab)`
in row-major order: the row of batch `b`, position `p` is `b * trg_len + p`
(batch slower-varying), and row `r` holds batch `r / trg_len`, position
`r % trg_len`. -/
theorem C8_output_flattening {batch Ls Lt d : ℕ} {α β : Type} (Vt : ℕ)
    (m : TransformerSt) (E : Externals batch Ls Lt d α β)
    (src_seq : Fin batch → Fin Ls → ℕ) (trg_seq : Fin batch → Fin Lt → ℕ)
    (hs : Ls ≤ m.n_position) (ht : Lt ≤ m.n_position) :
    ∃ g : Tensor3 batch Lt Vt,
      seqLogits Vt m E src_seq trg_seq = some g
      ∧ fullForward Vt m E src_seq trg_seq = some (view2 g)
      ∧ (∀ (b : Fin batch) (p : Fin Lt) (c : Fin Vt),
          view2 g (flatIdx b p) c = g b p c)
      ∧ (∀ (r : Fin (batch * Lt)) (c : Fin Vt),
          view2 g r c = g r.divNat r.modNat c) := by
  obtain ⟨x, hx⟩ := decOutput_some m E src_seq trg_seq hs ht
  refine ⟨projStage Vt (m.store m.prjCell).vals m.scale_prj m.d_model x, ?_, ?_, ?_, ?_⟩
  · unfold seqLogits
    rw [hx]
    rfl
  · unfold fullForward seqLogits
    rw [hx]
    rfl
  · intro b p c
    show (projStage Vt (m.store m.prjCell).vals m.scale_prj m.d_model x)
        (flatIdx b p).divNat (flatIdx b p).modNat c = _
    rw [flatIdx_divNat, flatIdx_modNat]
  · intro r c
    rfl

/-- C8 witness: the theorem applied to the concrete model `mW` with trivial
externals `EW` at scalar shapes. -/
theorem C8_output_flattening_witness :
    ∃ g : Tensor3 1 1 1,
      seqLogits 1 mW EW (fun _ _ => 0) (fun _ _ => 0) = some g
      ∧ fullForward 1 mW EW (fun _ _ => 0) (fun _ _ => 0) = some (view2 g)
      ∧ (∀ (b p c : Fin 1), view2 g (flatIdx b p) c = g b p c)
      ∧ (∀ (r : Fin (1 * 1)) (c : Fin 1), view2 g r c = g r.divNat r.modNat c) :=
  C8_output_flattening 1 mW EW (fun _ _ => 0) (fun _ _ => 0) (by decide) (by decide)


lemma mkTransformer_sel_irrelevant_unshared (cfg : Config) (v0 v1 v2 : ℕ → ℕ → ℝ)
    (hsh : cfg.trg_emb_prj_weight_sharing = false) (s1 s2 : String)
    (h1 : s1 ∈ (["emb", "prj", "none"] : List String))
    (h2 : s2 ∈ (["emb", "prj", "none"] : List String)) :
    mkTransformer { cfg with scale_emb_or_prj := s1 } v0 v1 v2
      = mkTransformer { cfg with scale_emb_or_prj := s2 } v0 v1 v2 := by
  unfold mkTransformer
  dsimp only
  rw [if_pos h1, if_pos h2]
  by_cases hd : cfg.d_model = cfg.d_word_vec
  · rw [if_pos hd, if_pos hd]
    simp [scale_emb_flag, scale_prj_flag, hsh]
  · rw [if_neg hd, if_neg hd]

lemma embedStage_scaled {batch L d : ℕ} (embW : ℕ → ℕ → ℝ) (dm : ℕ)
    (seq : Fin batch → Fin L → ℕ) :
    (embedStage embW true dm seq : Tensor3 batch L d)
      = fun b t (j : Fin d) => embW (seq b t) (j : ℕ) * Real.sqrt (dm : ℝ) := by
  unfold embedStage
  rw [if_pos rfl]
  funext b t j
  rw [Real.sqrt_eq_rpow]
  norm_num

lemma fullForward_prj_scaling {batch Ls Lt d : ℕ} {α β : Type} (Vt : ℕ)
    (m : TransformerSt) (E : Externals batch Ls Lt d α β)
    (src_seq : Fin batch → Fin Ls → ℕ) (trg_seq : Fin batch → Fin Lt → ℕ)
    (hprj : m.scale_prj = true) :
    fullForward Vt m E src_seq trg_seq
      = (fullForward Vt { m with scale_prj := false } E src_seq trg_seq).map
          (fun f => fun r c => f r c * ((m.d_model : ℝ) ^ (-(0.5 : ℝ)))) := by
  unfold fullForward seqLogits
  have hdec : decOutput ({ m with scale_prj := false } : TransformerSt) E src_seq trg_seq
      = decOutput m E src_seq trg_seq := rfl
  rw [hdec]
  cases hdo : decOutput m E src_seq trg_seq with
  | none => rfl
  | some x =>
      simp only [Option.map_some']
      rw [hprj]
      rfl

/-- C5: with target-embedding/projection sharing disabled, the constructed
model (hence the output logits) is identical for every legal scaling-mode
selector; the selector-to-flag mapping of lines 197-198 sets exactly
(`emb` → embedding scaling), (`prj` → projection scaling), (`none` → neither),
and both flags are always false without sharing; the embedding flag
multiplies the looked-up embeddings by `sqrt(d_model)` immediately after
lookup (the stage shared by Encoder and Decoder), and the projection flag
multiplies the final logits by `d_model ^ -0.5` after the output
projection. -/
theorem C5_scaling_modes {batch Ls Lt d : ℕ} {α β : Type} (Vt : ℕ)
    (E : Externals batch Ls Lt d α β)
    (src_seq : Fin batch → Fin Ls → ℕ) (trg_seq : Fin batch → Fin Lt → ℕ)
    (cfg : Config) (v0 v1 v2 : ℕ → ℕ → ℝ) :
    (cfg.trg_emb_prj_weight_sharing = false →
      ∀ s1 s2 : String, s1 ∈ (["emb", "prj", "none"] : List String) →
        s2 ∈ (["emb", "prj", "none"] : List String) →
        (mkTransformer { cfg with scale_emb_or_prj := s1 } v0 v1 v2).map
            (fun m => fullForward Vt m E src_seq trg_seq)
          = (mkTransformer { cfg with scale_emb_or_prj := s2 } v0 v1 v2).map
            (fun m => fullForward Vt m E src_seq trg_seq))
    ∧ (∀ s : String, scale_emb_flag false s = false ∧ scale_prj_flag false s = false)
    ∧ (scale_emb_flag true "emb" = true ∧ scale_prj_flag true "emb" = false)
    ∧ (scale_emb_flag true "prj" = false ∧ scale_prj_flag true "prj" = true)
    ∧ (scale_emb_flag true "none" = false ∧ scale_prj_flag true "none" = false)
    ∧ (∀ (embW : ℕ → ℕ → ℝ) (dm : ℕ),
        (embedStage embW true dm src_seq : Tensor3 batch Ls d)
          = fun b t (j : Fin d) => embW (src_seq b t) (j : ℕ) * Real.sqrt (dm : ℝ))
    ∧ (∀ (embW : ℕ → ℕ → ℝ) (dm : ℕ),
        (embedStage embW true dm trg_seq : Tensor3 batch Lt d)
          = fun b t (j : Fin d) => embW (trg_seq b t) (j : ℕ) * Real.sqrt (dm : ℝ))
    ∧ (∀ m : TransformerSt, m.scale_prj = true →
        fullForward Vt m E src_seq trg_seq
          = (fullForward Vt { m with scale_prj := false } E src_seq trg_seq).map
              (fun f => fun r c => f r c * ((m.d_model : ℝ) ^ (-(0.5 : ℝ))))) := by
  refine ⟨?_, ?_, ?_, ?_, ?_, ?_, ?_, ?_⟩
  · intro hsh s1 s2 h1 h2
    rw [mkTransformer_sel_irrelevant_unshared cfg v0 v1 v2 hsh s1 s2 h1 h2]
  · intro s
    exact ⟨rfl, rfl⟩
  · exact ⟨by decide, by decide⟩
  · exact ⟨by decide, by decide⟩
  · exact ⟨by decide, by decide⟩
  · intro embW dm
    exact embedStage_scaled embW dm src_seq
  · intro embW dm
    exact embedStage_scaled embW dm trg_seq
  · intro m hprj
    exact fullForward_prj_scaling Vt m E src_seq trg_seq hprj

/-- C5 witness: the theorem applied at concrete shapes with `cfgU`
(sharing off) for the selector-irrelevance part and the concrete model `mW`
(whose `scale_prj` is set) for the projection-scaling part. -/
theorem C5_scaling_modes_witness :
    ((mkTransformer { cfgU with scale_emb_or_prj := "emb" } vW vW vW).map
        (fun m => fullForward 1 m EW (fun _ _ => 0) (fun _ _ => 0))
      = (mkTransformer { cfgU with scale_emb_or_prj := "none" } vW vW vW).map
        (fun m => fullForward 1 m EW (fun _ _ => 0) (fun _ _ => 0)))
    ∧ (scale_emb_flag false "prj" = false ∧ scale_prj_flag false "prj" = false)
    ∧ ((embedStage vW true 4 ((fun _ _ => 0) : Fin 1 → Fin 1 → ℕ) : Tensor3 1 1 1)
        = fun b t (j : Fin 1) => vW (((fun _ _ => 0) : Fin 1 → Fin 1 → ℕ) b t) (j : ℕ)
            * Real.sqrt ((4 : ℕ) : ℝ))
    ∧ (fullForward 1 mW EW (fun _ _ => 0) (fun _ _ => 0)
        = (fullForward 1 { mW with scale_prj := false } EW (fun _ _ => 0) (fun _ _ => 0)).map
            (fun f => fun r c => f r c * ((mW.d_model : ℝ) ^ (-(0.5 : ℝ))))) := by
  have h := C5_scaling_modes 1 EW (fun _ _ => 0) (fun _ _ => 0) cfgU vW vW vW
  exact ⟨h.1 rfl "emb" "none" (by decide) (by decide), h.2.1 "prj",
    h.2.2.2.2.2.1 vW 4, h.2.2.2.2.2.2.2 mW rfl⟩

end Models
